import Mathlib

/-!
Verification of the icenet data-pipeline core against its specification.

The development shallowly embeds the date-window construction, file discovery
and batch-index arithmetic of the repository:

* `icenet2/data/producers.py` — `DataProducer.__init__`,
  `DataProducer.get_data_var_folder`, `Processor.init_source_data`;
* `icenet2/data/loaders/__init__.py` — `IceNetDataLoaderFactory`;
* `icenet/model/predict.py` — the test-set replay branch of `predict_forecast`;
* `icenet/plotting/forecast.py` — `plot_sea_ice_extent_error`, `compute_metrics`.

Dates are modelled as integer day numbers (faithful to `datetime.date`
ordering and `datetime.timedelta` arithmetic), file paths as lists of path
components, and the filesystem, where it matters, as an explicit list of
existing directories.  Fallible code returns `Except`/`Option`.
-/

/-! ## Date sorting

Python `sorted` on dates.  Only the multiset of elements matters for the
claims below; we use Mathlib's structurally recursive insertion sort so that
all definitions evaluate inside the kernel. -/

/-- Python `sorted` on a list of dates (integer day numbers). -/
def pySortInts (xs : List Int) : List Int :=
  List.insertionSort (fun a b => a ≤ b) xs

theorem pySortInts_perm (xs : List Int) : (pySortInts xs).Perm xs :=
  List.perm_insertionSort _ xs

theorem mem_pySortInts {x : Int} {xs : List Int} :
    x ∈ pySortInts xs ↔ x ∈ xs :=
  (pySortInts_perm xs).mem_iff

theorem nodup_pySortInts {xs : List Int} (h : xs.Nodup) :
    (pySortInts xs).Nodup :=
  ((pySortInts_perm xs).nodup_iff).mpr h

/-! ## Lag/lead window construction (`Processor.init_source_data`, lines 156-181)

For each date in the current working list, `range(lag_days)` offsets
`date - (day + 1)` are collected when absent from the working list, then the
deduplicated collection is appended (`dates += list(set(additional_lag_dates))`;
Python set iteration order is unspecified, so `list(set(...))` is modelled by
`List.dedup`, which has the same membership and multiplicity).  The lead pass
runs afterwards over the lag-extended list. -/

/-- The lag-date additions: `date - (day+1)` for `day in range(lag_days)`,
skipping dates already in the working list. -/
def lagAdditions (dates : List Int) (lagDays : Nat) : List Int :=
  dates.flatMap (fun date =>
    (List.range lagDays).filterMap (fun (day : Nat) =>
      if date - ((day : Int) + 1) ∈ dates then none
      else some (date - ((day : Int) + 1))))

/-- The lead-date additions: `date + (day+1)` for `day in range(lead_days)`,
skipping dates already in the working list. -/
def leadAdditions (dates : List Int) (leadDays : Nat) : List Int :=
  dates.flatMap (fun date =>
    (List.range leadDays).filterMap (fun (day : Nat) =>
      if date + ((day : Int) + 1) ∈ dates then none
      else some (date + ((day : Int) + 1))))

/-- `if lag_days: ... dates += list(set(additional_lag_dates))` — a `lag_days`
of `0` (or `None`) is falsy and the branch is skipped. -/
def lagExtended (dates : List Int) (lagDays : Nat) : List Int :=
  if lagDays ≠ 0 then dates ++ (lagAdditions dates lagDays).dedup else dates

/-- `if lead_days: ... dates += list(set(additional_lead_dates))`. -/
def leadExtended (dates : List Int) (leadDays : Nat) : List Int :=
  if leadDays ≠ 0 then dates ++ (leadAdditions dates leadDays).dedup else dates

/-- The per-category working date list built by `Processor.init_source_data`
(producers.py lines 144-181): the sorted category dates, extended by the lag
pass and then by the lead pass (the lead pass runs over the lag-extended
list). -/
def initCategoryDates (catDates : List Int) (lagDays leadDays : Nat) : List Int :=
  leadExtended (lagExtended (pySortInts catDates) lagDays) leadDays

theorem mem_lagAdditions {x : Int} {dates : List Int} {lagDays : Nat} :
    x ∈ lagAdditions dates lagDays ↔
      x ∉ dates ∧ ∃ d ∈ dates, d - lagDays ≤ x ∧ x ≤ d - 1 := by
  simp only [lagAdditions, List.mem_flatMap, List.mem_filterMap, List.mem_range]
  constructor
  · rintro ⟨d, hd, day, hday, hsome⟩
    by_cases hmem : d - ((day : Int) + 1) ∈ dates
    · rw [if_pos hmem] at hsome
      exact absurd hsome (by simp)
    · rw [if_neg hmem] at hsome
      have hx := Option.some.inj hsome
      subst hx
      exact ⟨hmem, d, hd, by omega⟩
  · rintro ⟨hx, d, hd, h1, h2⟩
    refine ⟨d, hd, (d - x - 1).toNat, by omega, ?_⟩
    have hval : d - (((d - x - 1).toNat : Int) + 1) = x := by omega
    rw [hval, if_neg hx]

theorem mem_leadAdditions {x : Int} {dates : List Int} {leadDays : Nat} :
    x ∈ leadAdditions dates leadDays ↔
      x ∉ dates ∧ ∃ d ∈ dates, d + 1 ≤ x ∧ x ≤ d + leadDays := by
  simp only [leadAdditions, List.mem_flatMap, List.mem_filterMap, List.mem_range]
  constructor
  · rintro ⟨d, hd, day, hday, hsome⟩
    by_cases hmem : d + ((day : Int) + 1) ∈ dates
    · rw [if_pos hmem] at hsome
      exact absurd hsome (by simp)
    · rw [if_neg hmem] at hsome
      have hx := Option.some.inj hsome
      subst hx
      exact ⟨hmem, d, hd, by omega⟩
  · rintro ⟨hx, d, hd, h1, h2⟩
    refine ⟨d, hd, (x - d - 1).toNat, by omega, ?_⟩
    have hval : d + (((x - d - 1).toNat : Int) + 1) = x := by omega
    rw [hval, if_neg hx]

theorem mem_lagExtended {x : Int} {dates : List Int} {lagDays : Nat} :
    x ∈ lagExtended dates lagDays ↔
      x ∈ dates ∨ ∃ d ∈ dates, d - lagDays ≤ x ∧ x ≤ d - 1 := by
  unfold lagExtended
  by_cases h : lagDays ≠ 0
  · rw [if_pos h]
    simp only [List.mem_append, List.mem_dedup, mem_lagAdditions]
    constructor
    · rintro (hx | ⟨hnot, hrest⟩)
      · exact Or.inl hx
      · exact Or.inr hrest
    · rintro (hx | ⟨d, hd, h1, h2⟩)
      · exact Or.inl hx
      · by_cases hmem : x ∈ dates
        · exact Or.inl hmem
        · exact Or.inr ⟨hmem, d, hd, h1, h2⟩
  · rw [if_neg h]
    push_neg at h
    subst h
    constructor
    · exact Or.inl
    · rintro (hx | ⟨d, _, h1, h2⟩)
      · exact hx
      · exfalso
        omega

theorem mem_leadExtended {x : Int} {dates : List Int} {leadDays : Nat} :
    x ∈ leadExtended dates leadDays ↔
      x ∈ dates ∨ ∃ d ∈ dates, d + 1 ≤ x ∧ x ≤ d + leadDays := by
  unfold leadExtended
  by_cases h : leadDays ≠ 0
  · rw [if_pos h]
    simp only [List.mem_append, List.mem_dedup, mem_leadAdditions]
    constructor
    · rintro (hx | ⟨hnot, hrest⟩)
      · exact Or.inl hx
      · exact Or.inr hrest
    · rintro (hx | ⟨d, hd, h1, h2⟩)
      · exact Or.inl hx
      · by_cases hmem : x ∈ dates
        · exact Or.inl hmem
        · exact Or.inr ⟨hmem, d, hd, h1, h2⟩
  · rw [if_neg h]
    push_neg at h
    subst h
    constructor
    · exact Or.inl
    · rintro (hx | ⟨d, _, h1, h2⟩)
      · exact hx
      · exfalso
        omega

theorem nodup_lagExtended {dates : List Int} {lagDays : Nat}
    (h : dates.Nodup) : (lagExtended dates lagDays).Nodup := by
  unfold lagExtended
  split
  · refine h.append (List.nodup_dedup _) ?_
    intro a ha hdedup
    exact ((List.mem_dedup.mp hdedup) |> mem_lagAdditions.mp).1 ha
  · exact h

theorem nodup_leadExtended {dates : List Int} {leadDays : Nat}
    (h : dates.Nodup) : (leadExtended dates leadDays).Nodup := by
  unfold leadExtended
  split
  · refine h.append (List.nodup_dedup _) ?_
    intro a ha hdedup
    exact ((List.mem_dedup.mp hdedup) |> mem_leadAdditions.mp).1 ha
  · exact h

/-- Claim C1 (amended: the category date list is assumed duplicate-free).
For a non-empty, duplicate-free category date list and positive `lag_days`
and `lead_days`, the working date list built by `Processor.init_source_data`
contains each date exactly once, and its members are exactly the category
dates together with the lag offsets `d - lag .. d` and the lead offsets
`d + 1 .. d + lead` of each category date `d`. -/
theorem initCategoryDates_spec (catDates : List Int) (lagDays leadDays : Nat)
    (hne : catDates ≠ []) (hnd : catDates.Nodup)
    (hlag : 0 < lagDays) (hlead : 0 < leadDays) :
    (initCategoryDates catDates lagDays leadDays).Nodup ∧
      ∀ x : Int, x ∈ initCategoryDates catDates lagDays leadDays ↔
        x ∈ catDates ∨ ∃ d ∈ catDates,
          (d - lagDays ≤ x ∧ x ≤ d) ∨ (d + 1 ≤ x ∧ x ≤ d + leadDays) := by
  constructor
  · exact nodup_leadExtended (nodup_lagExtended (nodup_pySortInts hnd))
  · intro x
    unfold initCategoryDates
    rw [mem_leadExtended]
    constructor
    · rintro (hx | ⟨d', hd', hub1, hub2⟩)
      · rcases mem_lagExtended.mp hx with hx0 | ⟨d, hd, h1, h2⟩
        · exact Or.inl (mem_pySortInts.mp hx0)
        · exact Or.inr ⟨d, mem_pySortInts.mp hd, by omega⟩
      · rcases mem_lagExtended.mp hd' with hd0 | ⟨d, hd, h1, h2⟩
        · exact Or.inr ⟨d', mem_pySortInts.mp hd0, by omega⟩
        · exact Or.inr ⟨d, mem_pySortInts.mp hd, by omega⟩
    · rintro (hx | ⟨d, hd, hcase⟩)
      · exact Or.inl (mem_lagExtended.mpr (Or.inl (mem_pySortInts.mpr hx)))
      · rcases hcase with ⟨h1, h2⟩ | ⟨h1, h2⟩
        · rcases eq_or_lt_of_le h2 with rfl | hlt
          · exact Or.inl (mem_lagExtended.mpr (Or.inl (mem_pySortInts.mpr hd)))
          · exact Or.inl (mem_lagExtended.mpr
              (Or.inr ⟨d, mem_pySortInts.mpr hd, by omega⟩))
        · exact Or.inr ⟨d, mem_lagExtended.mpr
            (Or.inl (mem_pySortInts.mpr hd)), by omega⟩

/-- Witness for the amended claim C1 at the concrete input `[0]`, lag 1,
lead 1. -/
theorem initCategoryDates_spec_witness :
    (initCategoryDates [0] 1 1).Nodup ∧
      ∀ x : Int, x ∈ initCategoryDates [0] 1 1 ↔
        x ∈ ([0] : List Int) ∨ ∃ d ∈ ([0] : List Int),
          (d - (1 : Nat) ≤ x ∧ x ≤ d) ∨ (d + 1 ≤ x ∧ x ≤ d + (1 : Nat)) :=
  initCategoryDates_spec [0] 1 1 (by decide) (by decide) (by decide) (by decide)

/-- Counterexample to claim C1 as stated: with the (non-empty) category date
list `[0, 0]` and positive lag and lead, the constructed working date list
contains the date `0` twice, so the working set does not have each date
appearing exactly once. -/
theorem initCategoryDates_dup_counterexample :
    ([0, 0] : List Int) ≠ [] ∧ 0 < 1 ∧
      ¬ (initCategoryDates [0, 0] 1 1).Nodup := by decide

/-! ## Ordered-dict helpers

Python `dict`s preserve insertion order; we model them as association lists
with an assignment that overwrites in place and otherwise appends. -/

/-- Key lookup in an insertion-ordered dict. -/
def dictGet {α : Type} : List (String × α) → String → Option α
  | [], _ => none
  | (k', v) :: rest, k => if k' = k then some v else dictGet rest k

/-- Python `d[k] = v`: overwrite in place when the key exists, else append. -/
def dictAssign {α : Type} : List (String × α) → String → α → List (String × α)
  | [], k, v => [(k, v)]
  | (k', v') :: rest, k, v =>
    if k' = k then (k, v) :: rest else (k', v') :: dictAssign rest k v

theorem dictGet_dictAssign_self {α : Type} (md : List (String × α)) (k : String)
    (v : α) : dictGet (dictAssign md k v) k = some v := by
  induction md with
  | nil => simp [dictAssign, dictGet]
  | cons p rest ih =>
    obtain ⟨k', v'⟩ := p
    by_cases h : k' = k
    · simp [dictAssign, dictGet, h]
    · simp [dictAssign, dictGet, h, ih]

theorem dictGet_dictAssign_ne {α : Type} (md : List (String × α)) (k k' : String)
    (v : α) (hne : k ≠ k') :
    dictGet (dictAssign md k v) k' = dictGet md k' := by
  induction md with
  | nil => simp [dictAssign, dictGet, hne]
  | cons p rest ih =>
    obtain ⟨k0, v0⟩ := p
    by_cases h : k0 = k
    · subst h
      simp [dictAssign, dictGet, hne]
    · simp only [dictAssign, if_neg h, dictGet]
      by_cases h' : k0 = k'
      · simp [dictGet, h']
      · simp [dictGet, h', ih]

theorem dictGet_eq_some_mem {α : Type} {md : List (String × α)} {k : String}
    {v : α} (h : dictGet md k = some v) : (k, v) ∈ md := by
  induction md with
  | nil => simp [dictGet] at h
  | cons p rest ih =>
    obtain ⟨k', v'⟩ := p
    by_cases hk : k' = k
    · subst hk
      rw [dictGet, if_pos rfl] at h
      rw [Option.some.inj h]
      exact List.mem_cons_self _ _
    · rw [dictGet, if_neg hk] at h
      exact List.mem_cons_of_mem _ (ih h)

/-! ## File discovery and variable association (`Processor.init_source_data`,
lines 183-224)

File paths are modelled as their non-empty lists of path components
(`df.split(os.sep)`), the recursive glob result `dfs` is an input, and the
date formatter `date.strftime("%Y_%m_%d")` is an input function on day
numbers. -/

/-- Substring containment, Python `needle in hay`. -/
def strContainsSub (needle hay : String) : Bool :=
  hay.toList.tails.any (fun t => needle.toList.isPrefixOf t)

/-- `os.path.split(df)[1]` — the basename (last path component). -/
def baseNameOf (df : List String) : String :=
  df.getLastD ("")

/-- `str(os.path.split(df)[0]).split(os.sep)` — the directory components. -/
def dirCompsOf (df : List String) : List String :=
  df.dropLast

/-- `re.match(r'^\d{4}$', var)`: the component is exactly four decimal
digits. -/
def isBareYear (var : String) : Bool :=
  var.length == 4 && var.toList.all (fun c => c.isDigit)

/-- Variable association (producers.py lines 202-207): the file's variable is
the name of its parent directory, falling back one level (`path_comps[-2]`)
when the parent is a bare year.  In context globbed paths always have at
least two directory components, so the `getLastD` defaults are never hit. -/
def fileVar (df : List String) : String :=
  let pathComps := dirCompsOf df
  let var := pathComps.getLastD ("")
  if isBareYear var then pathComps.dropLast.getLastD ("") else var

/-- Lines 209-213: create the variable key when new, then append the file
when it is not already present in the variable's list. -/
def addFile (var : String) (df : List String)
    (varFiles : List (String × List (List String))) :
    List (String × List (List String)) :=
  match varFiles with
  | [] => [(var, [df])]
  | (v, fs) :: rest =>
    if v = var then (v, if df ∈ fs then fs else fs ++ [df]) :: rest
    else (v, fs) :: addFile var df rest

/-- Lines 197-213, body of the per-file loop: skip the file when any
configured file filter occurs in its basename, else add it under its
variable. -/
def addFileFiltered (fileFilters : List String)
    (varFiles : List (String × List (List String))) (df : List String) :
    List (String × List (List String)) :=
  if fileFilters.any (fun flt => strContainsSub flt (baseNameOf df)) then varFiles
  else addFile (fileVar df) df varFiles

/-- Lines 189-213, body of the per-date loop: the files whose basename equals
`date.strftime("%Y_%m_%d") + ".nc"` are processed in glob order. -/
def processDate (fmt : Int → String) (dfs : List (List String))
    (fileFilters : List String)
    (varFiles : List (String × List (List String))) (date : Int) :
    List (String × List (List String)) :=
  (dfs.filter (fun df => baseNameOf df == fmt date ++ ".nc")).foldl
    (addFileFiltered fileFilters) varFiles

/-- Lines 143-213, body of the per-category loop: empty categories are
skipped (`continue`); otherwise every working date, in sorted order, is
processed. -/
def processCategory (fmt : Int → String) (dfs : List (List String))
    (fileFilters : List String) (lagDays leadDays : Nat)
    (varFiles : List (String × List (List String))) (catDates : List Int) :
    List (String × List (List String)) :=
  if catDates = [] then varFiles
  else (pySortInts (initCategoryDates catDates lagDays leadDays)).foldl
    (processDate fmt dfs fileFilters) varFiles

/-- Python `sorted` on strings. -/
def pySortStrs (xs : List String) : List String :=
  List.insertionSort (fun a b => a ≤ b) xs

/-- Line 217-219: `{var: var_files[var] for var in sorted(var_files.keys())}`. -/
def sortVarFiles (vf : List (String × List (List String))) :
    List (String × List (List String)) :=
  (pySortStrs (vf.map Prod.fst)).filterMap (fun v =>
    (dictGet vf v).map (fun fs => (v, fs)))

/-- Shallow embedding of `Processor.init_source_data` (matching part): fold
the per-category processing over train, val and test, then store the
variable-to-files map with sorted keys. -/
def initSourceData (fmt : Int → String) (dfs : List (List String))
    (fileFilters : List String)
    (trainDates valDates testDates : List Int) (lagDays leadDays : Nat) :
    List (String × List (List String)) :=
  sortVarFiles
    ([trainDates, valDates, testDates].foldl
      (processCategory fmt dfs fileFilters lagDays leadDays) [])

/-- The per-file invariant tracked through `init_source_data`: each entry's
list is duplicate-free, and holds only filter-clean files of that entry's
variable. -/
def varFilesInv (fileFilters : List String)
    (vf : List (String × List (List String))) : Prop :=
  ∀ p ∈ vf, p.2.Nodup ∧ ∀ df ∈ p.2,
    fileFilters.any (fun flt => strContainsSub flt (baseNameOf df)) = false ∧
      p.1 = fileVar df

theorem bool_eq_false {b : Bool} (h : ¬ b = true) : b = false := by
  cases b
  · rfl
  · exact absurd rfl h

theorem addFile_inv {fileFilters : List String}
    {vf : List (String × List (List String))} {df : List String}
    (hclean : fileFilters.any (fun flt => strContainsSub flt (baseNameOf df)) = false)
    (hinv : varFilesInv fileFilters vf) :
    varFilesInv fileFilters (addFile (fileVar df) df vf) := by
  induction vf with
  | nil =>
    intro p hp
    rw [addFile] at hp
    rcases List.mem_singleton.mp hp with rfl
    refine ⟨List.nodup_singleton df, ?_⟩
    intro df' hdf'
    rcases List.mem_singleton.mp hdf' with rfl
    exact ⟨hclean, rfl⟩
  | cons q rest ih =>
    obtain ⟨v, fs⟩ := q
    have hq := hinv (v, fs) (List.mem_cons_self _ _)
    have hrest : varFilesInv fileFilters rest := by
      intro p hp
      exact hinv p (List.mem_cons_of_mem _ hp)
    intro p hp
    rw [addFile] at hp
    by_cases hv : v = fileVar df
    · rw [if_pos hv] at hp
      rcases List.mem_cons.mp hp with rfl | hp'
      · by_cases hdf : df ∈ fs
        · rw [if_pos hdf]
          exact hq
        · rw [if_neg hdf]
          constructor
          · refine hq.1.append (List.nodup_singleton df) ?_
            intro a ha ha'
            rcases List.mem_singleton.mp ha' with rfl
            exact hdf ha
          · intro df' hdf'
            rcases List.mem_append.mp hdf' with h' | h'
            · exact hq.2 df' h'
            · rcases List.mem_singleton.mp h' with rfl
              exact ⟨hclean, hv⟩
      · exact hrest p hp'
    · rw [if_neg hv] at hp
      rcases List.mem_cons.mp hp with rfl | hp'
      · exact hq
      · exact ih hrest p hp'

theorem foldl_addFileFiltered_inv (fileFilters : List String)
    (l : List (List String)) :
    ∀ vf, varFilesInv fileFilters vf →
      varFilesInv fileFilters (l.foldl (addFileFiltered fileFilters) vf) := by
  induction l with
  | nil =>
    intro vf h
    exact h
  | cons df rest ih =>
    intro vf h
    rw [List.foldl_cons]
    apply ih
    unfold addFileFiltered
    split
    · exact h
    · next hcond => exact addFile_inv (bool_eq_false hcond) h

theorem processDate_inv {fmt : Int → String} {dfs : List (List String)}
    {fileFilters : List String}
    {vf : List (String × List (List String))} {date : Int}
    (h : varFilesInv fileFilters vf) :
    varFilesInv fileFilters (processDate fmt dfs fileFilters vf date) :=
  foldl_addFileFiltered_inv fileFilters _ vf h

theorem foldl_processDate_inv (fmt : Int → String) (dfs : List (List String))
    (fileFilters : List String) (dates : List Int) :
    ∀ vf, varFilesInv fileFilters vf →
      varFilesInv fileFilters
        (dates.foldl (processDate fmt dfs fileFilters) vf) := by
  induction dates with
  | nil =>
    intro vf h
    exact h
  | cons d rest ih =>
    intro vf h
    rw [List.foldl_cons]
    exact ih _ (processDate_inv h)

theorem foldl_processCategory_inv (fmt : Int → String) (dfs : List (List String))
    (fileFilters : List String) (lagDays leadDays : Nat)
    (cats : List (List Int)) :
    ∀ vf, varFilesInv fileFilters vf →
      varFilesInv fileFilters
        (cats.foldl (processCategory fmt dfs fileFilters lagDays leadDays) vf) := by
  induction cats with
  | nil =>
    intro vf h
    exact h
  | cons cat rest ih =>
    intro vf h
    rw [List.foldl_cons]
    apply ih
    unfold processCategory
    split
    · exact h
    · exact foldl_processDate_inv fmt dfs fileFilters _ vf h

theorem sortVarFiles_mem {vf : List (String × List (List String))}
    {p : String × List (List String)} (h : p ∈ sortVarFiles vf) : p ∈ vf := by
  unfold sortVarFiles at h
  rcases List.mem_filterMap.mp h with ⟨v, hv, heq⟩
  cases hget : dictGet vf v with
  | none =>
    rw [hget] at heq
    simp at heq
  | some fs =>
    rw [hget] at heq
    rw [Option.map_some'] at heq
    rcases Option.some.inj heq with rfl
    exact dictGet_eq_some_mem hget

theorem map_fst_filterMap_dictGet {α : Type} (vf : List (String × α))
    (l : List String) :
    (l.filterMap (fun v => (dictGet vf v).map (fun fs => (v, fs)))).map Prod.fst
      = l.filter (fun v => (dictGet vf v).isSome) := by
  induction l with
  | nil => rfl
  | cons v t ih =>
    cases hget : dictGet vf v with
    | none => simp [List.filterMap_cons, List.filter_cons, hget, ih]
    | some fs => simp [List.filterMap_cons, List.filter_cons, hget, ih]

theorem sortVarFiles_keys_sorted (vf : List (String × List (List String))) :
    ((sortVarFiles vf).map Prod.fst).Sorted (· ≤ ·) := by
  unfold sortVarFiles
  rw [map_fst_filterMap_dictGet]
  exact (List.sorted_insertionSort _ _).filter _

theorem initSourceData_inv (fmt : Int → String) (dfs : List (List String))
    (fileFilters : List String)
    (trainDates valDates testDates : List Int) (lagDays leadDays : Nat) :
    varFilesInv fileFilters
      (initSourceData fmt dfs fileFilters trainDates valDates testDates
        lagDays leadDays) := by
  intro p hp
  have hmem := sortVarFiles_mem hp
  refine foldl_processCategory_inv fmt dfs fileFilters lagDays leadDays
    [trainDates, valDates, testDates] [] ?_ p hmem
  intro q hq
  exact absurd hq (List.not_mem_nil q)

/-- Claim C10: after every `Processor.init_source_data` call, the
`_var_files` mapping has its variable keys in sorted order, every
per-variable file list is duplicate-free (even when a file's date recurs
across categories or as both target and offset), and no listed file's
basename contains any configured file-filter string. -/
theorem initSourceData_var_files_invariants (fmt : Int → String)
    (dfs : List (List String)) (fileFilters : List String)
    (trainDates valDates testDates : List Int) (lagDays leadDays : Nat) :
    ((initSourceData fmt dfs fileFilters trainDates valDates testDates
        lagDays leadDays).map Prod.fst).Sorted (· ≤ ·) ∧
      ∀ v fs, (v, fs) ∈ initSourceData fmt dfs fileFilters trainDates valDates
          testDates lagDays leadDays →
        fs.Nodup ∧ ∀ df ∈ fs, ∀ flt ∈ fileFilters,
          strContainsSub flt (baseNameOf df) = false := by
  constructor
  · unfold initSourceData
    exact sortVarFiles_keys_sorted _
  · intro v fs hmem
    have h := initSourceData_inv fmt dfs fileFilters trainDates valDates
      testDates lagDays leadDays (v, fs) hmem
    refine ⟨h.1, ?_⟩
    intro df hdf flt hflt
    have hany := (h.2 df hdf).1
    have := List.any_eq_false.mp hany flt hflt
    exact bool_eq_false this

/-- Witness for claim C10 at a concrete processor run: one training date, one
matching file, one file filter that its basename avoids. -/
theorem initSourceData_var_files_invariants_witness :
    ([["s", "era5", "ta", "d.nc"]] : List (List String)).Nodup ∧
      strContainsSub ("x") (baseNameOf ["s", "era5", "ta", "d.nc"]) = false :=
  ⟨((initSourceData_var_files_invariants (fun _ => "d")
        [["s", "era5", "ta", "d.nc"]] ["x"] [0] [] [] 0 0).2
      "ta" [["s", "era5", "ta", "d.nc"]] (by decide)).1,
    ((initSourceData_var_files_invariants (fun _ => "d")
        [["s", "era5", "ta", "d.nc"]] ["x"] [0] [] [] 0 0).2
      "ta" [["s", "era5", "ta", "d.nc"]] (by decide)).2
      ["s", "era5", "ta", "d.nc"] (by decide) ("x") (by decide)⟩

/-- Claim C3: every file associated by `Processor.init_source_data` is keyed
by the name of its immediate parent directory, unless that name is exactly
four decimal digits (a bare year), in which case it is keyed by the directory
one level further up. -/
theorem initSourceData_variable_of_file (fmt : Int → String)
    (dfs : List (List String)) (fileFilters : List String)
    (trainDates valDates testDates : List Int) (lagDays leadDays : Nat) :
    ∀ v fs df, (v, fs) ∈ initSourceData fmt dfs fileFilters trainDates
        valDates testDates lagDays leadDays → df ∈ fs →
      v = if isBareYear ((dirCompsOf df).getLastD (""))
        then (dirCompsOf df).dropLast.getLastD ("")
        else (dirCompsOf df).getLastD ("") := by
  intro v fs df hmem hdf
  have h := initSourceData_inv fmt dfs fileFilters trainDates valDates
    testDates lagDays leadDays (v, fs) hmem
  have hv := (h.2 df hdf).2
  simpa [fileVar] using hv

/-- Witness for claim C3 at a concrete run whose matched file sits under a
bare-year directory, exercising the one-level-up fallback. -/
theorem initSourceData_variable_of_file_witness :
    "ta" = if isBareYear ((dirCompsOf ["s", "era5", "ta", "2020", "d.nc"]).getLastD (""))
      then (dirCompsOf ["s", "era5", "ta", "2020", "d.nc"]).dropLast.getLastD ("")
      else (dirCompsOf ["s", "era5", "ta", "2020", "d.nc"]).getLastD ("") :=
  initSourceData_variable_of_file (fun _ => "d")
    [["s", "era5", "ta", "2020", "d.nc"]] [] [0] [] [] 0 0
    "ta" [["s", "era5", "ta", "2020", "d.nc"]] ["s", "era5", "ta", "2020", "d.nc"]
    (by decide) (by decide)

/-! ## Test-set replay (`icenet/model/predict.py`, lines 96-136)

The flat test batch stream is replayed with a forward-only cursor: the first
batch is loaded before the loop, and for each requested index the loop
`while batch < int(idx / ds.batch_size): batch += 1` advances the cursor — it
never rewinds.  The items processed are modelled as (batch number, item
index) pairs. -/

/-- Lines 117-136: the forward-only cursor.  `while batch < idx / B` leaves
the cursor at `max batch (idx / B)`; the processed item is
`idx % B` of that batch. -/
def replayGo (batchSize : Nat) : Nat → List Nat → List (Nat × Nat)
  | _, [] => []
  | batch, idx :: rest =>
    (max batch (idx / batchSize), idx % batchSize) ::
      replayGo batchSize (max batch (idx / batchSize)) rest

/-- Lines 121-136: each start date is located by its flat index
`test_dates.index(sd)` and replayed through the cursor starting at batch 0. -/
def predictTestIndices (batchSize : Nat) (testDates startDates : List Int) :
    List (Nat × Nat) :=
  replayGo batchSize 0 (startDates.map (fun sd => List.indexOf sd testDates))

/-- Lines 106-136: the test-set branch of `predict_forecast`.  Both
`RuntimeError` checks precede creation of the batch iterator, so an error is
raised before any batch is consumed or any prediction run. -/
def predictTestSet (batchSize : Nat) (testDates startDates : List Int) :
    Except String (List (Nat × Nat)) :=
  if testDates = [] then
    Except.error ("No processed files were produced for the test set")
  else if (startDates.filter (fun sd => decide (sd ∉ testDates))) ≠ [] then
    Except.error ("requested start dates are not in the test set")
  else
    Except.ok (predictTestIndices batchSize testDates startDates)

theorem replayGo_getElem (batchSize : Nat) (idxs : List Nat) :
    ∀ b, ((idxs.map (fun i => i / batchSize)).Sorted (· ≤ ·)) →
      (∀ i ∈ idxs, b ≤ i / batchSize) →
      ∀ (n : Nat) (i : Nat), idxs[n]? = some i →
        (replayGo batchSize b idxs)[n]? = some (i / batchSize, i % batchSize) := by
  induction idxs with
  | nil =>
    intro b _ _ n i hi
    simp at hi
  | cons idx rest ih =>
    intro b hsorted hlb n i hi
    have hb : b ≤ idx / batchSize := hlb idx (List.mem_cons_self _ _)
    have hmax : max b (idx / batchSize) = idx / batchSize := Nat.max_eq_right hb
    rw [List.map_cons, List.sorted_cons] at hsorted
    cases n with
    | zero =>
      rw [List.getElem?_cons_zero] at hi
      rcases Option.some.inj hi with rfl
      rw [replayGo, List.getElem?_cons_zero, hmax]
    | succ m =>
      rw [List.getElem?_cons_succ] at hi
      rw [replayGo, List.getElem?_cons_succ, hmax]
      refine ih (idx / batchSize) hsorted.2 ?_ m i hi
      intro j hj
      exact hsorted.1 (j / batchSize) (List.mem_map.mpr ⟨j, hj, rfl⟩)

/-- Claim C2 (amended: the requested start dates must have non-decreasing
batch quotients, since the replay cursor only moves forward).  In test-set
replay mode with a positive batch size `B`, when the flat test-date indices
of the requested start dates have non-decreasing `idx / B`, the start date at
flat index `idx` is processed as item `idx % B` of batch `idx / B`. -/
theorem predictTestIndices_spec (batchSize : Nat) (testDates startDates : List Int)
    (hB : 0 < batchSize)
    (hsorted : (((startDates.map (fun sd => List.indexOf sd testDates)).map
        (fun i => i / batchSize)).Sorted (· ≤ ·))) :
    ∀ (n : Nat) (sd : Int), startDates[n]? = some sd →
      (predictTestIndices batchSize testDates startDates)[n]? =
        some (List.indexOf sd testDates / batchSize,
          List.indexOf sd testDates % batchSize) := by
  intro n sd hsd
  refine replayGo_getElem batchSize _ 0 hsorted (fun i _ => Nat.zero_le _) n _ ?_
  rw [List.getElem?_map, hsd, Option.map_some']

/-- Witness for the amended claim C2: batch size 2, test dates at flat
indices 0 and 2, requested in increasing order. -/
theorem predictTestIndices_spec_witness :
    (predictTestIndices 2 [10, 20, 30] [10, 30])[1]? =
      some (List.indexOf (30 : Int) [10, 20, 30] / 2,
        List.indexOf (30 : Int) [10, 20, 30] % 2) :=
  predictTestIndices_spec 2 [10, 20, 30] [10, 30] (by decide) (by decide)
    1 30 (by decide)

/-- Counterexample to claim C2 as stated: with batch size 1, test dates
`[10, 20]` and the start dates requested out of order as `[20, 10]`, the
second request (date 10, flat index 0) is processed as item 0 of batch 1 —
the cursor cannot rewind — whereas the claim requires batch
`floor(0 / 1) = 0`. -/
theorem predictTestIndices_counterexample :
    (predictTestIndices 1 [10, 20] [20, 10])[1]? = some (1, 0) ∧
      (List.indexOf (10 : Int) [10, 20] / 1,
        List.indexOf (10 : Int) [10, 20] % 1) = (0, 0) ∧
      ((1, 0) : Nat × Nat) ≠ (0, 0) := by decide

/-- Claim C9 (amended: the no-error case additionally requires the test-date
list to be non-empty, which the claim's own first clause forces).  In
test-set replay mode the branch errors out, before consuming any batch, iff
the configured test-date list is empty or some requested start date is absent
from it. -/
theorem predictTestSet_checks (batchSize : Nat) (testDates startDates : List Int) :
    (∃ r, predictTestSet batchSize testDates startDates = Except.ok r) ↔
      (testDates ≠ [] ∧ ∀ sd ∈ startDates, sd ∈ testDates) := by
  unfold predictTestSet
  by_cases hempty : testDates = []
  · rw [if_pos hempty]
    constructor
    · rintro ⟨r, hr⟩
      exact absurd hr (by simp)
    · rintro ⟨hne, _⟩
      exact absurd hempty hne
  · rw [if_neg hempty]
    by_cases hmiss : (startDates.filter (fun sd => decide (sd ∉ testDates))) ≠ []
    · rw [if_pos hmiss]
      constructor
      · rintro ⟨r, hr⟩
        exact absurd hr (by simp)
      · rintro ⟨_, hall⟩
        refine absurd ?_ hmiss
        rw [List.filter_eq_nil_iff]
        intro sd hsd
        simp only [decide_eq_true_iff, not_not, Decidable.not_not]
        exact hall sd hsd
    · rw [if_neg hmiss]
      push_neg at hmiss
      constructor
      · rintro ⟨r, _⟩
        refine ⟨hempty, ?_⟩
        intro sd hsd
        by_contra hnot
        have : sd ∈ startDates.filter (fun sd => decide (sd ∉ testDates)) :=
          List.mem_filter.mpr ⟨hsd, by simpa using hnot⟩
        rw [hmiss] at this
        exact absurd this (List.not_mem_nil sd)
      · rintro ⟨_, _⟩
        exact ⟨_, rfl⟩

/-- Witness for the amended claim C9: a one-date test set with its date
requested replays without error. -/
theorem predictTestSet_checks_witness :
    ∃ r, predictTestSet 4 [7] [7] = Except.ok r :=
  (predictTestSet_checks 4 [7] [7]).mpr (by decide)

/-- Counterexample to claim C9 as stated: with an empty test-date list and no
requested start dates, every requested start date is (vacuously) present in
the test-date list, yet the branch still raises the empty-test-set
RuntimeError, contradicting the claim's "neither of these errors is raised"
clause. -/
theorem predictTestSet_empty_counterexample :
    predictTestSet 4 [] [] =
      Except.error ("No processed files were produced for the test set") := rfl

/-! ## DataProducer construction and directory tree (`icenet2/data/producers.py`) -/

/-- Modelled from the spec: the `Hemisphere` flag enum of `icenet2.utils`
(not under src/) — a north/south selector with values NONE, NORTH, SOUTH and
BOTH = NORTH | SOUTH, combined with bitwise or.  Encoded as the bit flags
0, 1, 2, 3. -/
def hemisphereNONE : Nat := 0

/-- Modelled from the spec: the NORTH flag of `icenet2.utils.Hemisphere`. -/
def hemisphereNORTH : Nat := 1

/-- Modelled from the spec: the SOUTH flag of `icenet2.utils.Hemisphere`. -/
def hemisphereSOUTH : Nat := 2

/-- Modelled from the spec: BOTH = NORTH | SOUTH. -/
def hemisphereBOTH : Nat := hemisphereNORTH ||| hemisphereSOUTH

/-- `DataProducer.__init__` (producers.py lines 19-49), reduced to its
observable checks: the hemisphere flags are assembled with
`(NORTH if north else NONE) | (SOUTH if south else NONE)` and the three
assertions run in source order — identifier truthiness, not NONE, not BOTH.
A successful construction returns the hemisphere flags. -/
def dataProducerInit (identifier : Option String) (north south : Bool) :
    Except String Nat :=
  let hemi := (if north then hemisphereNORTH else hemisphereNONE) |||
    (if south then hemisphereSOUTH else hemisphereNONE)
  if identifier.getD ("") = "" then Except.error ("No identifier supplied")
  else if hemi = hemisphereNONE then Except.error ("No hemispheres selected")
  else if hemi = hemisphereBOTH then Except.error ("Both hemispheres selected")
  else Except.ok hemi

/-- Claim C4: with an identifier supplied, constructing any DataProducer
(hence any Downloader, Generator or Processor, which all defer to
`DataProducer.__init__`) succeeds iff exactly one of north/south is selected;
with neither or both selected an AssertionError is raised. -/
theorem dataProducerInit_hemisphere (identifier : String)
    (hid : identifier ≠ "") (north south : Bool) :
    (∃ h, dataProducerInit (some identifier) north south = Except.ok h) ↔
      ((north = true ∧ south = false) ∨ (north = false ∧ south = true)) := by
  cases north <;> cases south <;>
    simp [dataProducerInit, hemisphereNONE, hemisphereNORTH, hemisphereSOUTH,
      hemisphereBOTH, hid]

/-- Witness for claim C4: the construction with identifier "osisaf" and only
north selected succeeds. -/
theorem dataProducerInit_hemisphere_witness :
    ∃ h, dataProducerInit (some ("osisaf")) true false = Except.ok h :=
  (dataProducerInit_hemisphere ("osisaf") (by decide) true false).mpr
    (Or.inl ⟨rfl, rfl⟩)

/-- `DataProducer.get_data_var_folder` (producers.py lines 63-82).  The
filesystem is modelled as the list of existing directories; `os.makedirs`
(with `exist_ok=True`) is modelled as appending the directory.  A falsy
`hemisphere` argument (absent or empty) falls back to the instance's single
configured hemisphere string `self.hemisphere_str[0]`. -/
def getDataVarFolder (fs : List (List String)) (basePath : List String)
    (hemisphereStrs : List String) (var : String) (append : List String)
    (hemisphere : Option String) (missingErr : Bool) :
    Except String (List String × List (List String)) :=
  let hemi := match hemisphere with
    | none => hemisphereStrs.getD 0 ("")
    | some h => if h = "" then hemisphereStrs.getD 0 ("") else h
  let dataVarPath := basePath ++ [hemi, var] ++ append
  if dataVarPath ∉ fs then
    if ¬ missingErr then Except.ok (dataVarPath, fs ++ [dataVarPath])
    else Except.error ("Directory is missing and this is flagged as an error")
  else Except.ok (dataVarPath, fs)

/-- Claim C8: `get_data_var_folder` returns the path joining the base path,
the hemisphere string (defaulting to the instance's configured hemisphere
when none is passed), the variable and the append components; it raises
OSError iff `missing_error` is set and that directory does not exist, and
otherwise creates the directory when missing. -/
theorem getDataVarFolder_spec (fs : List (List String)) (basePath : List String)
    (hemisphereStrs : List String) (var : String) (append : List String)
    (hemisphere : Option String) (missingErr : Bool) :
    ((∃ e, getDataVarFolder fs basePath hemisphereStrs var append hemisphere
        missingErr = Except.error e) ↔
      (missingErr = true ∧
        basePath ++ [match hemisphere with
          | none => hemisphereStrs.getD 0 ("")
          | some h => if h = "" then hemisphereStrs.getD 0 ("") else h,
          var] ++ append ∉ fs)) ∧
    ∀ p fs', getDataVarFolder fs basePath hemisphereStrs var append hemisphere
        missingErr = Except.ok (p, fs') →
      p = basePath ++ [match hemisphere with
        | none => hemisphereStrs.getD 0 ("")
        | some h => if h = "" then hemisphereStrs.getD 0 ("") else h,
        var] ++ append ∧ p ∈ fs' := by
  unfold getDataVarFolder
  by_cases hmem : basePath ++ [match hemisphere with
      | none => hemisphereStrs.getD 0 ("")
      | some h => if h = "" then hemisphereStrs.getD 0 ("") else h,
      var] ++ append ∈ fs
  · rw [if_neg (by simpa using hmem)]
    constructor
    · constructor
      · rintro ⟨e, he⟩
        exact absurd he (by simp)
      · rintro ⟨_, hnot⟩
        exact absurd hmem hnot
    · rintro p fs' hok
      rcases Option.some.inj (congrArg Except.toOption hok) with h
      rw [Prod.mk.injEq] at h
      exact ⟨h.1.symm, h.1 ▸ h.2 ▸ hmem⟩
  · rw [if_pos (by simpa using hmem)]
    cases missingErr with
    | false =>
      rw [if_pos (by simp)]
      constructor
      · constructor
        · rintro ⟨e, he⟩
          exact absurd he (by simp)
        · rintro ⟨hfalse, _⟩
          exact absurd hfalse (by simp)
      · rintro p fs' hok
        rcases Option.some.inj (congrArg Except.toOption hok) with h
        rw [Prod.mk.injEq] at h
        refine ⟨h.1.symm, ?_⟩
        rw [← h.2, ← h.1]
        exact List.mem_append.mpr (Or.inr (List.mem_singleton.mpr rfl))
    | true =>
      rw [if_neg (by simp)]
      constructor
      · constructor
        · rintro ⟨e, _⟩
          exact ⟨rfl, hmem⟩
        · rintro ⟨_, _⟩
          exact ⟨_, rfl⟩
      · rintro p fs' hok
        exact absurd hok (by simp)

/-- Witness for claim C8 at a concrete call: creating a missing variable
folder under the defaulted north hemisphere. -/
theorem getDataVarFolder_spec_witness :
    (["data", "osisaf", "north", "siconca"] : List String) =
        ["data", "osisaf"] ++ [match (none : Option String) with
          | none => (["north"] : List String).getD 0 ("")
          | some h => if h = "" then (["north"] : List String).getD 0 ("") else h,
          "siconca"] ++ [] ∧
      (["data", "osisaf", "north", "siconca"] : List String) ∈
        [["data", "osisaf", "north", "siconca"]] :=
  (getDataVarFolder_spec [] ["data", "osisaf"] ["north"] "siconca" [] none
      false).2
    ["data", "osisaf", "north", "siconca"]
    [["data", "osisaf", "north", "siconca"]] rfl

/-! ## IceNetDataLoaderFactory (`icenet2/data/loaders/__init__.py`)

Python classes are modelled by their name together with their method
resolution order (`inspect.getmro`, as a list of class names); descent from
`IceNetBaseDataLoader` is membership of that name in the MRO.  Instantiating
a class with arguments is modelled as pairing the class with the argument
list. -/

/-- A Python class as seen by the factory: its name and the names in its
method resolution order. -/
structure LoaderImpl where
  clsName : String
  mro : List String
deriving DecidableEq

/-- Modelled from the spec: `DaskMultiWorkerLoader` of
`icenet2.data.loaders.dask` (not under src/), the dask-based loader
implementation descended from `IceNetBaseDataLoader`. -/
def DaskMultiWorkerLoader : LoaderImpl :=
  ⟨"DaskMultiWorkerLoader", ["DaskMultiWorkerLoader", "IceNetBaseDataLoader", "object"]⟩

/-- `IceNetBaseDataLoader in inspect.getmro(loader_impl)`. -/
def descendsFromBase (impl : LoaderImpl) : Prop :=
  "IceNetBaseDataLoader" ∈ impl.mro

instance (impl : LoaderImpl) : Decidable (descendsFromBase impl) := by
  unfold descendsFromBase
  infer_instance

/-- `IceNetDataLoaderFactory.__init__`: the loader map holds exactly the
"dask" implementation (the dask_shared and standard entries are commented
out in the source). -/
def loaderFactoryInit : List (String × LoaderImpl) :=
  [("dask", DaskMultiWorkerLoader)]

/-- `IceNetDataLoaderFactory.add_data_loader` (lines 20-35): reject an
already-registered name, reject an implementation not descended from
`IceNetBaseDataLoader`, otherwise store it. -/
def addDataLoader (loaderMap : List (String × LoaderImpl)) (loaderName : String)
    (loaderImpl : LoaderImpl) : Except String (List (String × LoaderImpl)) :=
  if (dictGet loaderMap loaderName).isSome then
    Except.error ("Cannot add as already in loader map")
  else if descendsFromBase loaderImpl then
    Except.ok (dictAssign loaderMap loaderName loaderImpl)
  else
    Except.error ("is not descended from IceNetBaseDataLoader")

/-- `IceNetDataLoaderFactory.create_data_loader` (lines 37-45):
`self._loader_map[loader_name](*args, **kwargs)` — a KeyError on an unknown
name is `none`; instantiation pairs the class with the arguments. -/
def createDataLoader {α : Type} (loaderMap : List (String × LoaderImpl))
    (loaderName : String) (args : List α) : Option (LoaderImpl × List α) :=
  (dictGet loaderMap loaderName).map (fun impl => (impl, args))

/-- Claim C5: the factory is a name-to-implementation registry.  Immediately
after construction the map holds exactly "dask" ↦ DaskMultiWorkerLoader; for
every unregistered name and implementation descended from
IceNetBaseDataLoader, add_data_loader then create_data_loader instantiates
that implementation with the given arguments; add_data_loader raises
RuntimeError exactly when the name is registered or the implementation is
not descended from IceNetBaseDataLoader. -/
theorem loaderFactory_registry (loaderMap : List (String × LoaderImpl))
    (loaderName : String) (loaderImpl : LoaderImpl) (args : List Int) :
    (dictGet loaderFactoryInit ("dask") = some DaskMultiWorkerLoader ∧
      ∀ n : String, (dictGet loaderFactoryInit n).isSome → n = "dask") ∧
    (dictGet loaderMap loaderName = none → descendsFromBase loaderImpl →
      ∃ m', addDataLoader loaderMap loaderName loaderImpl = Except.ok m' ∧
        createDataLoader m' loaderName args = some (loaderImpl, args)) ∧
    ((∃ e, addDataLoader loaderMap loaderName loaderImpl = Except.error e) ↔
      ((dictGet loaderMap loaderName).isSome ∨ ¬ descendsFromBase loaderImpl)) := by
  refine ⟨⟨rfl, ?_⟩, ?_, ?_⟩
  · intro n hn
    unfold loaderFactoryInit at hn
    rw [dictGet] at hn
    by_cases h : "dask" = n
    · exact h.symm
    · rw [if_neg h, dictGet] at hn
      exact absurd hn (by simp)
  · intro hfree hdesc
    refine ⟨dictAssign loaderMap loaderName loaderImpl, ?_, ?_⟩
    · unfold addDataLoader
      rw [hfree]
      rw [if_neg (by simp), if_pos hdesc]
    · unfold createDataLoader
      rw [dictGet_dictAssign_self, Option.map_some']
  · unfold addDataLoader
    by_cases hreg : (dictGet loaderMap loaderName).isSome
    · rw [if_pos hreg]
      exact ⟨fun _ => Or.inl hreg, fun _ => ⟨_, rfl⟩⟩
    · rw [if_neg hreg]
      by_cases hdesc : descendsFromBase loaderImpl
      · rw [if_pos hdesc]
        constructor
        · rintro ⟨e, he⟩
          exact absurd he (by simp)
        · rintro (h | h)
          · exact absurd h hreg
          · exact absurd hdesc h
      · rw [if_neg hdesc]
        exact ⟨fun _ => Or.inr hdesc, fun _ => ⟨_, rfl⟩⟩

/-- Witness for claim C5: registering a fresh loader descended from the base
class on the freshly-constructed factory, then creating it with concrete
arguments. -/
theorem loaderFactory_registry_witness :
    ∃ m', addDataLoader loaderFactoryInit ("standard")
        ⟨"StdLoader", ["StdLoader", "IceNetBaseDataLoader", "object"]⟩ =
        Except.ok m' ∧
      createDataLoader m' ("standard") [(3 : Int)] =
        some (⟨"StdLoader", ["StdLoader", "IceNetBaseDataLoader", "object"]⟩,
          [(3 : Int)]) :=
  ((loaderFactory_registry loaderFactoryInit ("standard")
      ⟨"StdLoader", ["StdLoader", "IceNetBaseDataLoader", "object"]⟩
      [(3 : Int)]).2).1 rfl (by decide)

/-! ## Sea-ice extent error (`icenet/plotting/forecast.py`, lines 128-202)

SIC values, mask weights and thresholds are modelled over `ℚ`; time series
as lists of per-time cell lists.  xarray's coordinate alignment of the two
time series is modelled by zipping them; `.weighted(agcm).sum(['xc','yc'])`
is the sum over cells of value times weight. -/

/-- One time step of `(da > threshold).astype(int).weighted(agcm).sum(['xc','yc'])`:
the sum over grid cells of the 0/1 strict-exceedance indicator times the
active-cell-mask weight. -/
def weightedBinarySum (threshold : ℚ) (cells mask : List ℚ) : ℚ :=
  ((cells.zip mask).map
    (fun p => (if threshold < p.1 then (1 : ℚ) else 0) * p.2)).sum

/-- One time step of the SIE error (lines 166-169): weighted forecast
exceedance minus weighted observed exceedance, times `grid_area_size**2`. -/
def sieErrStep (threshold : ℚ) (gridAreaSize : ℤ) (mask fcT obsT : List ℚ) : ℚ :=
  (weightedBinarySum threshold fcT mask - weightedBinarySum threshold obsT mask)
    * ((gridAreaSize : ℚ) ^ 2)

/-- `plot_sea_ice_extent_error`, computation part: threshold validation,
per-time forecast SIE error, and the optional comparison series (`None`
exactly when `cmp_da` is `None`). -/
def plotSeaIceExtentError (threshold : ℚ) (gridAreaSize : ℤ) (mask : List ℚ)
    (fc obs : List (List ℚ)) (cmp : Option (List (List ℚ))) :
    Except String (List ℚ × Option (List ℚ)) :=
  if threshold < 0 ∨ 1 < threshold then
    Except.error ("threshold must be a float between 0 and 1")
  else Except.ok
    ((fc.zip obs).map (fun p => sieErrStep threshold gridAreaSize mask p.1 p.2),
      cmp.map (fun c =>
        (c.zip obs).map (fun p => sieErrStep threshold gridAreaSize mask p.1 p.2)))

/-- The claim's reading of the weighted count: the sum of the active-cell
weights over the cells whose SIC strictly exceeds the threshold. -/
def specWeightedExceedCount (threshold : ℚ) (cells mask : List ℚ) : ℚ :=
  (((cells.zip mask).filter (fun p => decide (threshold < p.1))).map Prod.snd).sum

theorem sum_indicator_mul (t : ℚ) (l : List (ℚ × ℚ)) :
    (l.map (fun p => (if t < p.1 then (1 : ℚ) else 0) * p.2)).sum
      = ((l.filter (fun p => decide (t < p.1))).map Prod.snd).sum := by
  induction l with
  | nil => rfl
  | cons p rest ih =>
    by_cases h : t < p.1
    · simp only [h, List.map_cons, List.sum_cons, List.filter_cons, decide_True,
        if_true, ite_true, one_mul, ih]
    · simp only [h, List.map_cons, List.sum_cons, List.filter_cons, decide_False,
        Bool.false_eq_true, if_false, ite_false, zero_mul, zero_add, ih]

theorem weightedBinarySum_eq_specCount (threshold : ℚ) (cells mask : List ℚ) :
    weightedBinarySum threshold cells mask
      = specWeightedExceedCount threshold cells mask :=
  sum_indicator_mul threshold (cells.zip mask)

/-- Claim C6: for every threshold in [0, 1], `plot_sea_ice_extent_error`
returns, at each (aligned) time step, the mask-weighted count of forecast
cells strictly exceeding the threshold minus the weighted count of observed
cells strictly exceeding it, times `grid_area_size` squared; the comparison
component is `None` exactly when `cmp_da` is `None`. -/
theorem plotSeaIceExtentError_spec (threshold : ℚ) (gridAreaSize : ℤ)
    (mask : List ℚ) (fc obs : List (List ℚ)) (cmp : Option (List (List ℚ)))
    (h0 : 0 ≤ threshold) (h1 : threshold ≤ 1) :
    plotSeaIceExtentError threshold gridAreaSize mask fc obs cmp =
      Except.ok
        ((fc.zip obs).map (fun p =>
          (specWeightedExceedCount threshold p.1 mask -
            specWeightedExceedCount threshold p.2 mask) * ((gridAreaSize : ℚ) ^ 2)),
        cmp.map (fun c => (c.zip obs).map (fun p =>
          (specWeightedExceedCount threshold p.1 mask -
            specWeightedExceedCount threshold p.2 mask) * ((gridAreaSize : ℚ) ^ 2)))) ∧
      ((cmp.map (fun c => (c.zip obs).map (fun p =>
          (specWeightedExceedCount threshold p.1 mask -
            specWeightedExceedCount threshold p.2 mask) * ((gridAreaSize : ℚ) ^ 2)))
        = none) ↔ cmp = none) := by
  constructor
  · unfold plotSeaIceExtentError
    rw [if_neg (by push_neg; exact ⟨h0, h1⟩)]
    have hstep : ∀ p : List ℚ × List ℚ,
        sieErrStep threshold gridAreaSize mask p.1 p.2 =
          (specWeightedExceedCount threshold p.1 mask -
            specWeightedExceedCount threshold p.2 mask) * ((gridAreaSize : ℚ) ^ 2) := by
      intro p
      rw [sieErrStep, weightedBinarySum_eq_specCount, weightedBinarySum_eq_specCount]
    cases cmp with
    | none =>
      simp only [Option.map_none']
      rw [List.map_congr_left (fun p _ => hstep p)]
    | some c =>
      simp only [Option.map_some']
      rw [List.map_congr_left (fun p _ => hstep p),
        List.map_congr_left (fun p _ => hstep p)]
  · cases cmp with
    | none => simp
    | some c => simp

/-- Witness for claim C6 at a concrete input: threshold 0, one active cell,
forecast ice present, none observed, no comparison array. -/
theorem plotSeaIceExtentError_spec_witness :
    plotSeaIceExtentError 0 25 [1] [[1]] [[0]] none =
      Except.ok
        (([[(1 : ℚ)]].zip [[(0 : ℚ)]]).map (fun p =>
          (specWeightedExceedCount 0 p.1 [1] -
            specWeightedExceedCount 0 p.2 [1]) * (((25 : ℤ) : ℚ) ^ 2)),
        (none : Option (List (List ℚ))).map (fun c =>
          (c.zip [[(0 : ℚ)]]).map (fun p =>
            (specWeightedExceedCount 0 p.1 [1] -
              specWeightedExceedCount 0 p.2 [1]) * (((25 : ℤ) : ℚ) ^ 2)))) ∧
      (((none : Option (List (List ℚ))).map (fun c =>
          (c.zip [[(0 : ℚ)]]).map (fun p =>
            (specWeightedExceedCount 0 p.1 [1] -
              specWeightedExceedCount 0 p.2 [1]) * (((25 : ℤ) : ℚ) ^ 2))) = none)
        ↔ (none : Option (List (List ℚ))) = none) :=
  plotSeaIceExtentError_spec 0 25 [1] [[1]] [[0]] none (by norm_num) (by norm_num)

/-! ## Metric computation (`icenet/plotting/forecast.py`, lines 205-258)

The raw error is `(fc_da - obs_da) * 100` cellwise; MAE/MSE are
mask-weighted means over cells per time step; RMSE is the elementwise
`da.sqrt` of the MSE series.  The array library's square root is passed in
as a function. -/

/-- `weighted(mask).mean(dim=['yc','xc'])`: sum of value times weight over
cells, divided by the sum of the weights. -/
def weightedMean (vals mask : List ℚ) : ℚ :=
  ((vals.zip mask).map (fun p => p.1 * p.2)).sum / mask.sum

/-- One time step of the raw SIC error `(fc_da - obs_da) * 100`, cellwise. -/
def errStep (fcT obsT : List ℚ) : List ℚ :=
  (fcT.zip obsT).map (fun p => (p.1 - p.2) * 100)

/-- The per-time MAE series: weighted mean of the absolute errors. -/
def maeVals (mask : List ℚ) (fc obs : List (List ℚ)) : List ℚ :=
  (fc.zip obs).map (fun p => weightedMean ((errStep p.1 p.2).map (fun v => |v|)) mask)

/-- The per-time MSE series: weighted mean of the squared errors. -/
def mseVals (mask : List ℚ) (fc obs : List (List ℚ)) : List ℚ :=
  (fc.zip obs).map (fun p => weightedMean ((errStep p.1 p.2).map (fun v => v ^ 2)) mask)

/-- The metric-dictionary loop body of `compute_metrics` (lines 247-254):
MAE assigns its series; MSE assigns unless already present (RMSE may have
come first); RMSE ensures MSE is present and assigns its elementwise square
root. -/
def computeMetricsStep (sqrtFn : ℚ → ℚ) (mask : List ℚ) (fc obs : List (List ℚ))
    (md : List (String × List ℚ)) (metric : String) : List (String × List ℚ) :=
  if metric = "MAE" then dictAssign md metric (maeVals mask fc obs)
  else if metric = "MSE" then
    if (dictGet md ("MSE")).isSome then md
    else dictAssign md ("MSE") (mseVals mask fc obs)
  else if metric = "RMSE" then
    dictAssign
      (if (dictGet md ("MSE")).isSome then md
        else dictAssign md ("MSE") (mseVals mask fc obs))
      metric
      (((dictGet (if (dictGet md ("MSE")).isSome then md
        else dictAssign md ("MSE") (mseVals mask fc obs)) ("MSE")).getD []).map sqrtFn)
  else md

/-- `compute_metrics`: the not-implemented check over the requested list,
the metric-dictionary fold, and the final restriction
`{k: metric_dict[k] for k in metrics}` to the requested keys (Python dict
comprehension: first-occurrence key order). -/
def computeMetrics (sqrtFn : ℚ → ℚ) (metrics : List String) (mask : List ℚ)
    (fc obs : List (List ℚ)) : Except String (List (String × List ℚ)) :=
  if metrics.any (fun m => decide (m ∉ (["MAE", "MSE", "RMSE"] : List String))) then
    Except.error ("metric has not been implemented")
  else
    Except.ok (metrics.dedup.filterMap (fun k =>
      (dictGet (metrics.foldl (computeMetricsStep sqrtFn mask fc obs) []) k).map
        (fun v => (k, v))))

theorem dictAssign_isSome_preserved {α : Type} {md : List (String × α)}
    {k : String} (k' : String) (v : α) (h : (dictGet md k).isSome) :
    (dictGet (dictAssign md k' v) k).isSome := by
  by_cases hk : k' = k
  · subst hk
    rw [dictGet_dictAssign_self]
    rfl
  · rw [dictGet_dictAssign_ne md k' k v hk]
    exact h

theorem computeMetricsStep_preserves {sqrtFn : ℚ → ℚ} {mask : List ℚ}
    {fc obs : List (List ℚ)} {md : List (String × List ℚ)} {k : String}
    (m : String) (h : (dictGet md k).isSome) :
    (dictGet (computeMetricsStep sqrtFn mask fc obs md m) k).isSome := by
  unfold computeMetricsStep
  split
  · exact dictAssign_isSome_preserved _ _ h
  · split
    · split
      · exact h
      · exact dictAssign_isSome_preserved _ _ h
    · split
      · refine dictAssign_isSome_preserved _ _ ?_
        split
        · exact h
        · exact dictAssign_isSome_preserved _ _ h
      · exact h

theorem computeMetricsStep_adds {sqrtFn : ℚ → ℚ} {mask : List ℚ}
    {fc obs : List (List ℚ)} {md : List (String × List ℚ)} {m : String}
    (hm : m ∈ (["MAE", "MSE", "RMSE"] : List String)) :
    (dictGet (computeMetricsStep sqrtFn mask fc obs md m) m).isSome := by
  unfold computeMetricsStep
  rcases List.mem_cons.mp hm with rfl | hm'
  · rw [if_pos rfl, dictGet_dictAssign_self]
    rfl
  rcases List.mem_cons.mp hm' with rfl | hm''
  · rw [if_neg (by decide), if_pos rfl]
    split
    · next h => exact h
    · rw [dictGet_dictAssign_self]
      rfl
  rcases List.mem_cons.mp hm'' with rfl | hm3
  · rw [if_neg (by decide), if_neg (by decide), if_pos rfl,
      dictGet_dictAssign_self]
    rfl
  · exact absurd hm3 (List.not_mem_nil _)

theorem foldl_computeMetricsStep_preserves (sqrtFn : ℚ → ℚ) (mask : List ℚ)
    (fc obs : List (List ℚ)) (l : List String) :
    ∀ (md : List (String × List ℚ)) (k : String), (dictGet md k).isSome →
      (dictGet (l.foldl (computeMetricsStep sqrtFn mask fc obs) md) k).isSome := by
  induction l with
  | nil =>
    intro md k h
    exact h
  | cons m t ih =>
    intro md k h
    rw [List.foldl_cons]
    exact ih _ k (computeMetricsStep_preserves m h)

theorem foldl_computeMetricsStep_covers (sqrtFn : ℚ → ℚ) (mask : List ℚ)
    (fc obs : List (List ℚ)) (l : List String)
    (hvalid : ∀ m ∈ l, m ∈ (["MAE", "MSE", "RMSE"] : List String)) :
    ∀ (md : List (String × List ℚ)), ∀ m0 ∈ l,
      (dictGet (l.foldl (computeMetricsStep sqrtFn mask fc obs) md) m0).isSome := by
  induction l with
  | nil =>
    intro md m0 h
    exact absurd h (List.not_mem_nil m0)
  | cons m t ih =>
    intro md m0 h0
    rw [List.foldl_cons]
    rcases List.mem_cons.mp h0 with rfl | hmem
    · exact foldl_computeMetricsStep_preserves sqrtFn mask fc obs t _ m0
        (computeMetricsStep_adds (hvalid m0 (List.mem_cons_self _ _)))
    · exact ih (fun x hx => hvalid x (List.mem_cons_of_mem _ hx)) _ m0 hmem

/-- The value invariant of the metric dictionary: when present, MSE holds the
MSE series and RMSE its elementwise square root. -/
def metricDictInv (sqrtFn : ℚ → ℚ) (mask : List ℚ) (fc obs : List (List ℚ))
    (md : List (String × List ℚ)) : Prop :=
  (dictGet md ("MSE") = none ∨ dictGet md ("MSE") = some (mseVals mask fc obs)) ∧
    (dictGet md ("RMSE") = none ∨
      dictGet md ("RMSE") = some ((mseVals mask fc obs).map sqrtFn))

theorem computeMetricsStep_inv {sqrtFn : ℚ → ℚ} {mask : List ℚ}
    {fc obs : List (List ℚ)} {md : List (String × List ℚ)} (m : String)
    (hinv : metricDictInv sqrtFn mask fc obs md) :
    metricDictInv sqrtFn mask fc obs (computeMetricsStep sqrtFn mask fc obs md m) := by
  by_cases h1 : m = "MAE"
  · subst h1
    rw [computeMetricsStep, if_pos rfl]
    exact ⟨by rw [dictGet_dictAssign_ne _ _ _ _ (by decide)]; exact hinv.1,
      by rw [dictGet_dictAssign_ne _ _ _ _ (by decide)]; exact hinv.2⟩
  · by_cases h2 : m = "MSE"
    · subst h2
      rw [computeMetricsStep, if_neg (by decide), if_pos rfl]
      split
      · exact hinv
      · exact ⟨by rw [dictGet_dictAssign_self]; exact Or.inr rfl,
          by rw [dictGet_dictAssign_ne _ _ _ _ (by decide)]; exact hinv.2⟩
    · by_cases h3 : m = "RMSE"
      · subst h3
        rw [computeMetricsStep, if_neg (by decide), if_neg (by decide), if_pos rfl]
        set md1 := if (dictGet md ("MSE")).isSome then md
          else dictAssign md ("MSE") (mseVals mask fc obs) with hmd1def
        have hmse : dictGet md1 ("MSE") = some (mseVals mask fc obs) := by
          rw [hmd1def]
          by_cases hsome : (dictGet md ("MSE")).isSome
          · rw [if_pos hsome]
            rcases hinv.1 with hnone | hval
            · rw [hnone] at hsome
              exact absurd hsome (by simp)
            · exact hval
          · rw [if_neg hsome]
            exact dictGet_dictAssign_self md ("MSE") (mseVals mask fc obs)
        constructor
        · rw [dictGet_dictAssign_ne _ _ _ _ (by decide)]
          exact Or.inr hmse
        · rw [dictGet_dictAssign_self, hmse]
          exact Or.inr rfl
      · rw [computeMetricsStep, if_neg h1, if_neg h2, if_neg h3]
        exact hinv

theorem foldl_computeMetricsStep_inv (sqrtFn : ℚ → ℚ) (mask : List ℚ)
    (fc obs : List (List ℚ)) (l : List String) :
    ∀ md, metricDictInv sqrtFn mask fc obs md →
      metricDictInv sqrtFn mask fc obs
        (l.foldl (computeMetricsStep sqrtFn mask fc obs) md) := by
  induction l with
  | nil =>
    intro md h
    exact h
  | cons m t ih =>
    intro md h
    rw [List.foldl_cons]
    exact ih _ (computeMetricsStep_inv m h)

theorem dictGet_filterMap {α : Type} (md : List (String × α)) (l : List String)
    (k0 : String) :
    dictGet (l.filterMap (fun k => (dictGet md k).map (fun v => (k, v)))) k0 =
      if k0 ∈ l then dictGet md k0 else none := by
  induction l with
  | nil => simp [dictGet]
  | cons k t ih =>
    rw [List.filterMap_cons]
    cases hk : dictGet md k with
    | none =>
      rw [Option.map_none', ih]
      by_cases hk0 : k0 = k
      · subst hk0
        by_cases hmem : k0 ∈ t
        · rw [if_pos hmem, if_pos (List.mem_cons_self _ _)]
        · rw [if_neg hmem, if_pos (List.mem_cons_self _ _), hk]
      · by_cases hmem : k0 ∈ t
        · rw [if_pos hmem, if_pos (List.mem_cons_of_mem _ hmem)]
        · rw [if_neg hmem, if_neg (by
            intro hcontr
            rcases List.mem_cons.mp hcontr with h | h
            · exact hk0 h
            · exact hmem h)]
    | some v =>
      rw [Option.map_some', dictGet]
      by_cases hk0 : k = k0
      · subst hk0
        rw [if_pos rfl, if_pos (List.mem_cons_self _ _), hk]
      · rw [if_neg hk0, ih]
        by_cases hmem : k0 ∈ t
        · rw [if_pos hmem, if_pos (List.mem_cons_of_mem _ hmem)]
        · rw [if_neg hmem, if_neg (by
            intro hcontr
            rcases List.mem_cons.mp hcontr with h | h
            · exact hk0 h.symm
            · exact hmem h)]

/-- Claim C7: `compute_metrics` raises NotImplementedError iff some requested
entry is not one of MAE, MSE, RMSE; otherwise it returns a dictionary keyed
exactly by the requested metrics, in which the RMSE entry is the square root
of the MSE of the same forecast and observation arrays, even when MSE itself
was not requested. -/
theorem computeMetrics_spec (sqrtFn : ℚ → ℚ) (metrics : List String)
    (mask : List ℚ) (fc obs : List (List ℚ)) :
    ((∃ e, computeMetrics sqrtFn metrics mask fc obs = Except.error e) ↔
      ∃ m ∈ metrics, m ∉ (["MAE", "MSE", "RMSE"] : List String)) ∧
    ∀ r, computeMetrics sqrtFn metrics mask fc obs = Except.ok r →
      (∀ k, k ∈ r.map Prod.fst ↔ k ∈ metrics) ∧
      ("RMSE" ∈ metrics →
        dictGet r ("RMSE") = some ((mseVals mask fc obs).map sqrtFn)) := by
  by_cases herr :
      metrics.any (fun m => decide (m ∉ (["MAE", "MSE", "RMSE"] : List String))) = true
  · constructor
    · constructor
      · rintro ⟨e, _⟩
        rcases List.any_eq_true.mp herr with ⟨m, hm, hdec⟩
        exact ⟨m, hm, of_decide_eq_true hdec⟩
      · rintro ⟨m, hm, _⟩
        refine ⟨"metric has not been implemented", ?_⟩
        unfold computeMetrics
        rw [if_pos herr]
    · intro r hr
      unfold computeMetrics at hr
      rw [if_pos herr] at hr
      exact absurd hr (by simp)
  · have hvalid : ∀ m ∈ metrics, m ∈ (["MAE", "MSE", "RMSE"] : List String) := by
      intro m hm
      have := List.any_eq_false.mp (bool_eq_false herr) m hm
      by_contra hnot
      exact this (decide_eq_true hnot)
    have hcover : ∀ m0 ∈ metrics,
        (dictGet (metrics.foldl (computeMetricsStep sqrtFn mask fc obs) []) m0).isSome :=
      foldl_computeMetricsStep_covers sqrtFn mask fc obs metrics hvalid []
    have hinv : metricDictInv sqrtFn mask fc obs
        (metrics.foldl (computeMetricsStep sqrtFn mask fc obs) []) :=
      foldl_computeMetricsStep_inv sqrtFn mask fc obs metrics []
        ⟨Or.inl rfl, Or.inl rfl⟩
    constructor
    · constructor
      · rintro ⟨e, he⟩
        unfold computeMetrics at he
        rw [if_neg herr] at he
        exact absurd he (by simp)
      · rintro ⟨m, hm, hnot⟩
        exact absurd (hvalid m hm) hnot
    · intro r hr
      unfold computeMetrics at hr
      rw [if_neg herr] at hr
      rcases Except.ok.inj hr with rfl
      constructor
      · intro k
        rw [map_fst_filterMap_dictGet]
        constructor
        · intro hk
          exact List.mem_dedup.mp (List.mem_of_mem_filter hk)
        · intro hk
          refine List.mem_filter.mpr ⟨List.mem_dedup.mpr hk, hcover k hk⟩
      · intro hR
        rw [dictGet_filterMap, if_pos (List.mem_dedup.mpr hR)]
        rcases hinv.2 with hnone | hval
        · have := hcover ("RMSE") hR
          rw [hnone] at this
          exact absurd this (by simp)
        · exact hval

/-- Witness for claim C7: requesting only RMSE (with the identity as the
array library's square root) yields a dictionary whose RMSE entry is the
square root of the MSE series, although MSE was not requested. -/
theorem computeMetrics_spec_witness :
    dictGet [("RMSE", [(10000 : ℚ)])] "RMSE" =
      some ((mseVals [1] [[1]] [[0]]).map (fun x => x)) :=
  (((computeMetrics_spec (fun x => x) ["RMSE"] [1] [[1]] [[0]]).2
      [("RMSE", [(10000 : ℚ)])] (by norm_num [computeMetrics, computeMetricsStep,
        mseVals, errStep, weightedMean, dictGet, dictAssign,
        List.filterMap_cons, List.filterMap_nil])).2) (by decide)
